import Mathlib

/-!
Shallow embedding of `src/search_parser.py` (SERP parser tool).

The repository fetches search-engine result pages for a list of search
terms, extracts hostnames from the top organic results, tallies hostname
frequency per term, and appends the tallies to a CSV file.

External collaborators (the `requests` HTTP client, `urllib.parse.urlparse`,
`pandas.Series.value_counts`, the CSV writer, Streamlit) are modelled
explicitly where the behaviour of the code depends on them; Python exceptions are
modelled with `Except Unit`, Python `None` with `Option.none`, and Python
dictionaries decoded from JSON with association lists.
-/

namespace SerpParser

/-! ## JSON values as decoded by `json.loads` / `response.json()` -/

/-- A Python value decoded from JSON: `None`, a bool, a number, a string,
a list, or a dict (association list with distinct keys). -/
inductive Json where
  | null
  | bool (b : Bool)
  | num (n : Int)
  | str (s : String)
  | arr (elems : List Json)
  | obj (fields : List (String × Json))

/-- Python `d.get(key, default)`: on a dict, the value stored at `key` or
the default; on any non-dict value an `AttributeError` is raised, modelled
as `Except.error`. -/
def dictGet (j : Json) (key : String) (d : Json) : Except Unit Json :=
  match j with
  | .obj fs => .ok ((fs.lookup key).getD d)
  | _ => .error ()

/-! ## Hostname Extractor (`extract_hostname`, lines 10-14)

`urlparse(url).hostname` is modelled character-for-character after the CPython
`urllib.parse` source: optional scheme split at the first `:` (accepted only when
the prefix is a valid scheme), a netloc only when the remainder starts with
`//`, a `ValueError` on unbalanced square brackets in the netloc, and the
hostname taken from the netloc after the last `@`, up to a `:` (or between
brackets), lower-cased, `None` when empty. -/

/-- Characters allowed in a URL scheme after the first (CPython
`scheme_chars`). -/
def isSchemeChar (c : Char) : Bool :=
  c.isAlphanum || c == '+' || c == '-' || c == '.'

/-- Characters that terminate the netloc in CPython `_splitnetloc`. -/
def isNetlocEnd (c : Char) : Bool :=
  c == '/' || c == '?' || c == '#'

/-- CPython `urlsplit` scheme handling: split at the first `:` when the part
before it is a nonempty valid scheme; otherwise no scheme is recognised and
the whole input remains. Returns (scheme, remainder). -/
def splitScheme (cs : List Char) : List Char × List Char :=
  let pre := cs.takeWhile (fun c => c != ':')
  match cs.dropWhile (fun c => c != ':') with
  | [] => ([], cs)
  | _ :: rest =>
    match pre with
    | [] => ([], cs)
    | c :: _ => if c.isAlpha && pre.all isSchemeChar then (pre, rest) else ([], cs)

/-- Python `s.rpartition(sep)[2]`: the part of `cs` after the last
occurrence of `sep` (all of `cs` when `sep` does not occur). -/
def afterLast (sep : Char) (cs : List Char) : List Char :=
  (cs.reverse.takeWhile (fun c => c != sep)).reverse

/-- CPython `_hostinfo` host part: inside brackets when a `[` is present,
otherwise everything before the first `:`. -/
def hostinfoHost (hostinfo : List Char) : List Char :=
  if hostinfo.contains '[' then
    ((hostinfo.dropWhile (fun c => c != '[')).drop 1).takeWhile (fun c => c != ']')
  else hostinfo.takeWhile (fun c => c != ':')

/-- Modelled external collaborator `urllib.parse.urlparse(url).hostname`:
`Except.error` models the `ValueError` raised on an invalid IPv6 netloc,
`Option.none` the `None` returned when the URL has no (nonempty) host. -/
def urlparseHostname (url : List Char) : Except Unit (Option (List Char)) :=
  let rest := (splitScheme url).2
  match rest with
  | '/' :: '/' :: r =>
    let netloc := r.takeWhile (fun c => !isNetlocEnd c)
    if (netloc.contains '[' && !netloc.contains ']')
        || (netloc.contains ']' && !netloc.contains '[') then
      .error ()
    else
      let host := (hostinfoHost (afterLast '@' netloc)).map Char.toLower
      .ok (if host.isEmpty then none else some host)
  | _ => .ok none

/-- Source `extract_hostname` (lines 10-14): returns `urlparse(url).hostname`
and converts any raised exception to `None` via the bare `except`. -/
def extract_hostname (url : String) : Option String :=
  match urlparseHostname url.data with
  | .error _ => none
  | .ok none => none
  | .ok (some h) => some ⟨h⟩

/-! ## Result Parser (`parse_organic_results`, lines 18-33) -/

/-- Hostname extraction applied to the JSON value stored under `"link"`:
`urlparse` raises a `TypeError` on every non-string argument, which
`extract_hostname` converts to `None`. -/
def linkHostname (l : Json) : Option String :=
  match l with
  | .str s => extract_hostname s
  | _ => none

/-- The loop body of lines 25-29: read the `"link"` field of each element with
default `""`; a non-dict element raises (`Except.error`). -/
def collectLinks : List Json → Except Unit (List Json)
  | [] => .ok []
  | r :: rs =>
    match dictGet r "link" (Json.str "") with
    | .error e => .error e
    | .ok l =>
      match collectLinks rs with
      | .error e => .error e
      | .ok ls => .ok (l :: ls)

/-- Lines 27-29: keep a hostname only when it is truthy (`if hostname:`),
i.e. neither `None` nor the empty string. -/
def truthyHostnames (ls : List Json) : List String :=
  ls.filterMap (fun l =>
    match linkHostname l with
    | some h => if h.isEmpty then none else some h
    | none => none)

/-- Insertion step of a stable descending sort on the count component. -/
def insertByCount (p : String × Nat) : List (String × Nat) → List (String × Nat)
  | [] => [p]
  | q :: qs => if q.2 < p.2 then p :: q :: qs else q :: insertByCount p qs

/-- Stable sort by descending count. -/
def sortByCountDesc : List (String × Nat) → List (String × Nat)
  | [] => []
  | p :: ps => insertByCount p (sortByCountDesc ps)

/-- Modelled external collaborator `pd.Series(ls).value_counts().to_dict()`
(line 32): each distinct element paired with its number of occurrences,
sorted by descending count (the relative order of equal counts is a pandas
implementation detail and not contractual); the resulting dict preserves
that iteration order. -/
def value_counts (ls : List String) : List (String × Nat) :=
  sortByCountDesc (ls.dedup.map (fun h => (h, ls.count h)))

/-- Source `parse_organic_results` (lines 18-33): navigate
`results.results.organic` with empty defaults, truncate to the first 10
entries, extract truthy hostnames, and tally them. `Except.error` models an
exception escaping the function (e.g. `.get` on a non-dict level). -/
def parse_organic_results (json_data : Json) : Except Unit (List (String × Nat)) :=
  match dictGet json_data "results" (Json.obj []) with
  | .error e => .error e
  | .ok r1 =>
    match dictGet r1 "results" (Json.obj []) with
    | .error e => .error e
    | .ok r2 =>
      match dictGet r2 "organic" (Json.arr []) with
      | .error e => .error e
      | .ok organic =>
        match organic with
        | .arr organic_results =>
          match collectLinks (organic_results.take 10) with
          | .error e => .error e
          | .ok ls => .ok (value_counts (truthyHostnames ls))
        | _ => .error ()

/-! ## CSV sink (`append_to_csv`, lines 37-41)

The output file is modelled as the list of rows already written; each call
opens the file in append mode, so the new rows go after the existing ones,
in the iteration order of the mapping. -/

/-- One output row: (search_term, hostname, count). -/
abbrev Row := String × String × Nat

/-- Source `append_to_csv` (lines 37-41): append one row per
(hostname, count) pair of `data`, in iteration order, to the end of the
file. -/
def append_to_csv (file : List Row) (data : List (String × Nat)) (search_term : String) : List Row :=
  file ++ data.map (fun p => (search_term, p.1, p.2))

/-! ## API Client Call (`call_api`, lines 45-61) -/

/-- The `"data"` sub-dictionary of the request payload built in `main`
(lines 117-127). The `q` field is absent (`none`) in the template and is
set by `call_api`. -/
structure PayloadData where
  domain : String
  loc : String
  lang : String
  device : String
  serp_type : String
  page : String
  verbatim : String
  q : Option String
deriving DecidableEq

/-- The request payload: a dict `{ "data": {...} }`. -/
structure Payload where
  data : PayloadData
deriving DecidableEq

/-- Line 51 `payload["data"]["q"] = search_term`: the payload dict with its
`q` entry set. -/
def setTerm (p : Payload) (search_term : String) : Payload :=
  { p with data := { p.data with q := some search_term } }

/-- The payload template as constructed in `main` with the form defaults
(lines 103-127): no `q` entry. -/
def payloadTemplate : Payload :=
  { data := { domain := "google.com", loc := "Delhi,India", lang := "en",
              device := "desktop", serp_type := "web", page := "1",
              verbatim := "0", q := none } }

/-- Modelled external collaborator `requests.post`: for the payload that is
sent, either a response (status code plus the outcome of `response.json()`,
whose `Except.error` models a JSON decode exception) or `Except.error` for
a transport-level exception (connection error, timeout). -/
structure HttpResponse where
  status_code : Nat
  body : Except Unit Json

/-- Source `call_api` (lines 45-61). The first component of the result is
the state of the (shared) payload object after the call: line 51 assigns
`payload["data"]["q"] = search_term` on the payload it was given, before
the `try` block, so the object held by the caller is mutated in place. The second
component is the returned pair: `(search_term, parse_organic_results(...))`
on a 200 response, `(search_term, None)` on any non-200 status or any
exception (transport failure, JSON decode failure, or an exception raised
inside `parse_organic_results`, all caught by the bare `except`). -/
def call_api (post : Payload → Except Unit HttpResponse) (payload : Payload)
    (search_term : String) : Payload × (String × Option (List (String × Nat))) :=
  let payload1 := setTerm payload search_term
  match post payload1 with
  | .error _ => (payload1, (search_term, none))
  | .ok response =>
    if response.status_code == 200 then
      match response.body with
      | .error _ => (payload1, (search_term, none))
      | .ok json_data =>
        match parse_organic_results json_data with
        | .error _ => (payload1, (search_term, none))
        | .ok m => (payload1, (search_term, some m))
    else (payload1, (search_term, none))

/-! ## Batch Orchestrator (`process_in_batches`, lines 65-89)

`ThreadPoolExecutor` submits one `call_api` per term and `as_completed`
yields every submitted future exactly once, in a nondeterministic
completion order; the loop body runs once per future. The embedding
abstracts the per-term call outcome as a function `call` and the completion
order as a list `completed` (any permutation of the submitted terms), and
folds the loop body over it. `call_api` is a total function, so
`future.result()` never raises and the `except` branch of lines 86-87 is
unreachable. -/

/-- The mutable state of one batch run: the output file, the accumulated
`results` list, and the per-term failure notices shown via `st.error`. -/
structure BatchState where
  file : List Row
  results : List (String × List (String × Nat))
  notices : List String
deriving DecidableEq

/-- Python truthiness of `hostname_count` (line 81): `None` and the empty
dict are falsy. -/
def truthy (hostname_count : Option (List (String × Nat))) : Bool :=
  match hostname_count with
  | none => false
  | some m => !m.isEmpty

/-- The loop body of lines 77-87 for one completed future. -/
def handleCompleted (st : BatchState) (search_term : String)
    (hostname_count : Option (List (String × Nat))) : BatchState :=
  match hostname_count with
  | some m =>
    if m.isEmpty then { st with notices := st.notices ++ [search_term] }
    else { st with file := append_to_csv st.file m search_term,
                   results := st.results ++ [(search_term, m)] }
  | none => { st with notices := st.notices ++ [search_term] }

/-- Source `process_in_batches` (lines 65-89): fold the completion loop over
the completed futures. `call` gives the `call_api` outcome of each term and
`completed` is the order in which `as_completed` yields the submitted
terms. -/
def process_in_batches (call : String → Option (List (String × Nat)))
    (completed : List String) (st : BatchState) : BatchState :=
  match completed with
  | [] => st
  | t :: ts => process_in_batches call ts (handleCompleted st t (call t))

/-! ## Derived definitions used by the verification -/

/-- A response body of the documented shape
`{ "results": { "results": { "organic": [...] } } }`. -/
def mkBody (organic : List Json) : Json :=
  Json.obj [("results", Json.obj [("results", Json.obj [("organic", Json.arr organic)])])]

/-- One organic entry contributes a hostname exactly when its `"link"`
field (default `""`) is a string whose extracted hostname is truthy. -/
def linkContributes (r : Json) : Bool :=
  match dictGet r "link" (Json.str "") with
  | .error _ => false
  | .ok l =>
    match linkHostname l with
    | some h => !h.isEmpty
    | none => false

/-- The rows one batch run appends to the output file, in completion
order. -/
def batchFileRows (call : String → Option (List (String × Nat))) : List String → List Row
  | [] => []
  | t :: ts =>
    (if truthy (call t) then ((call t).getD []).map (fun p => (t, p.1, p.2)) else [])
      ++ batchFileRows call ts

/-- The (term, mapping) pairs one batch run accumulates, in completion
order. -/
def batchResults (call : String → Option (List (String × Nat))) :
    List String → List (String × List (String × Nat))
  | [] => []
  | t :: ts =>
    (if truthy (call t) then [(t, (call t).getD [])] else []) ++ batchResults call ts

/-- The failure notices one batch run emits, in completion order. -/
def batchNotices (call : String → Option (List (String × Nat))) : List String → List String
  | [] => []
  | t :: ts => (if truthy (call t) then [] else [t]) ++ batchNotices call ts

/-- Lower-case ASCII letters: the alphabet used for the well-formed-scheme
family in the testable property of the Hostname Extractor. -/
def lowerAlphaChars : List Char := "abcdefghijklmnopqrstuvwxyz".data

/-- Characters a well-formed hostname is built from (lower-case letters,
digits, dot, hyphen): none of them is a URL delimiter, so a host made of
them survives URL parsing unchanged. -/
def hostChars : List Char := "abcdefghijklmnopqrstuvwxyz0123456789.-".data

/-- An organic entry with the given link URL. -/
def organicEntry (url : String) : Json :=
  Json.obj [("link", Json.str url)]

/-- A sample organic list of 12 entries: positions 1-10 hold four `a.com`
links, two `b.com` links, two `c.com` links, one entry with no `link` field
and one unparseable link; positions 11-12 hold `zzz.com` links that the
10-item window must exclude. -/
def sampleOrganic : List Json :=
  [organicEntry "https://a.com/1", organicEntry "https://b.com/1",
   organicEntry "https://a.com/2", Json.obj [],
   organicEntry "https://c.com/1", organicEntry "https://b.com/2",
   organicEntry "https://a.com/3", organicEntry "nota url",
   organicEntry "https://c.com/2", organicEntry "https://a.com/4",
   organicEntry "https://zzz.com/1", organicEntry "https://zzz.com/2"]

/-- A simulated transport for concrete runs: the term `"ok"` gets a 200
response whose body holds one `example.com` organic result; every other
term gets a 500 response with an undecodable body. -/
def postW : Payload → Except Unit HttpResponse := fun p =>
  match p.data.q with
  | some "ok" =>
    .ok { status_code := 200,
          body := .ok (mkBody [organicEntry "https://example.com/a"]) }
  | _ => .ok { status_code := 500, body := .error () }

/-! ## Lemmas about the sorting and tallying model -/

theorem insertByCount_perm (p : String × Nat) (l : List (String × Nat)) :
    (insertByCount p l).Perm (p :: l) := by
  induction l with
  | nil => simp [insertByCount]
  | cons q qs ih =>
    simp only [insertByCount]
    by_cases h : q.2 < p.2
    · simp [h]
    · simp only [h, if_false]
      exact (ih.cons q).trans (List.Perm.swap p q qs)

theorem sortByCountDesc_perm (l : List (String × Nat)) :
    (sortByCountDesc l).Perm l := by
  induction l with
  | nil => simp [sortByCountDesc]
  | cons p ps ih =>
    exact (insertByCount_perm p (sortByCountDesc ps)).trans (ih.cons p)

theorem pairwise_insertByCount (p : String × Nat) (l : List (String × Nat))
    (hl : l.Pairwise (fun a b => b.2 ≤ a.2)) :
    (insertByCount p l).Pairwise (fun a b => b.2 ≤ a.2) := by
  induction l with
  | nil => simp [insertByCount]
  | cons q qs ih =>
    rcases List.pairwise_cons.mp hl with ⟨hq, hqs⟩
    simp only [insertByCount]
    by_cases h : q.2 < p.2
    · simp only [h, if_true]
      refine List.pairwise_cons.mpr ⟨?_, hl⟩
      intro b hb
      rcases List.mem_cons.mp hb with hb | hb
      · exact hb ▸ Nat.le_of_lt h
      · exact Nat.le_trans (hq b hb) (Nat.le_of_lt h)
    · simp only [h, if_false]
      refine List.pairwise_cons.mpr ⟨?_, ih hqs⟩
      intro b hb
      have hb2 := (insertByCount_perm p qs).mem_iff.mp hb
      rcases List.mem_cons.mp hb2 with hb2 | hb2
      · exact hb2 ▸ Nat.le_of_not_lt h
      · exact hq b hb2

theorem sortByCountDesc_sorted (l : List (String × Nat)) :
    (sortByCountDesc l).Pairwise (fun a b => b.2 ≤ a.2) := by
  induction l with
  | nil => simp [sortByCountDesc]
  | cons p ps ih => exact pairwise_insertByCount p (sortByCountDesc ps) ih

theorem lookup_eq_some_of_mem (l : List (String × Nat)) (k : String) (v : Nat)
    (hnd : (l.map Prod.fst).Nodup) (hm : (k, v) ∈ l) :
    l.lookup k = some v := by
  induction l with
  | nil => cases hm
  | cons q qs ih =>
    have hnd1 : q.1 ∉ qs.map Prod.fst ∧ (qs.map Prod.fst).Nodup := by
      rw [List.map_cons, List.nodup_cons] at hnd
      exact hnd
    rcases List.mem_cons.mp hm with hm | hm
    · subst hm
      simp [List.lookup]
    · have hk : k ≠ q.1 := by
        intro hkq
        exact hnd1.1 (hkq ▸ List.mem_map_of_mem Prod.fst hm)
      simp only [List.lookup]
      rw [beq_eq_false_iff_ne.mpr hk]
      exact ih hnd1.2 hm

theorem lookup_eq_none_of_not_mem (l : List (String × Nat)) (k : String)
    (hm : k ∉ l.map Prod.fst) :
    l.lookup k = none := by
  induction l with
  | nil => rfl
  | cons q qs ih =>
    simp only [List.map_cons, List.mem_cons, not_or] at hm
    simp only [List.lookup]
    rw [beq_eq_false_iff_ne.mpr hm.1]
    exact ih hm.2

theorem value_counts_keys_perm (ls : List String) :
    ((value_counts ls).map Prod.fst).Perm ls.dedup := by
  have h1 := (sortByCountDesc_perm (ls.dedup.map (fun h => (h, ls.count h)))).map Prod.fst
  have h2 : (ls.dedup.map (fun h => (h, ls.count h))).map Prod.fst = ls.dedup := by
    simp [List.map_map, Function.comp_def]
  rw [value_counts]
  rw [h2] at h1
  exact h1

theorem value_counts_nodup_keys (ls : List String) :
    ((value_counts ls).map Prod.fst).Nodup :=
  (value_counts_keys_perm ls).nodup_iff.mpr (List.nodup_dedup ls)

theorem value_counts_mem_iff (ls : List String) (k : String) (v : Nat) :
    (k, v) ∈ value_counts ls ↔ k ∈ ls ∧ v = ls.count k := by
  rw [value_counts]
  rw [(sortByCountDesc_perm (ls.dedup.map (fun h => (h, ls.count h)))).mem_iff]
  constructor
  · intro hm
    rcases List.mem_map.mp hm with ⟨h, hh, heq⟩
    rcases Prod.mk.injEq .. ▸ heq with ⟨hk, hv⟩
    subst hk
    exact ⟨List.mem_dedup.mp hh, hv.symm⟩
  · rintro ⟨hk, hv⟩
    subst hv
    exact List.mem_map_of_mem _ (List.mem_dedup.mpr hk)

theorem value_counts_lookup_of_mem (ls : List String) (k : String) (hk : k ∈ ls) :
    (value_counts ls).lookup k = some (ls.count k) :=
  lookup_eq_some_of_mem _ _ _ (value_counts_nodup_keys ls)
    ((value_counts_mem_iff ls k (ls.count k)).mpr ⟨hk, rfl⟩)

theorem value_counts_lookup_of_not_mem (ls : List String) (k : String) (hk : k ∉ ls) :
    (value_counts ls).lookup k = none := by
  refine lookup_eq_none_of_not_mem _ _ (fun hmem => ?_)
  rcases List.mem_map.mp hmem with ⟨p, hp, hfst⟩
  have hkls : p.1 ∈ ls := ((value_counts_mem_iff ls p.1 p.2).mp hp).1
  exact hk (hfst ▸ hkls)

theorem value_counts_sorted (ls : List String) :
    (value_counts ls).Pairwise (fun a b => b.2 ≤ a.2) :=
  sortByCountDesc_sorted _

theorem value_counts_sum (ls : List String) :
    ((value_counts ls).map Prod.snd).sum = ls.length := by
  have h1 := ((sortByCountDesc_perm (ls.dedup.map (fun h => (h, ls.count h)))).map Prod.snd).sum_eq
  rw [value_counts, h1, List.map_map]
  exact List.sum_map_count_dedup_eq_length ls

/-! ## Lemmas about the batch orchestrator -/

theorem process_in_batches_eq (call : String → Option (List (String × Nat)))
    (completed : List String) (st : BatchState) :
    process_in_batches call completed st =
      { file := st.file ++ batchFileRows call completed,
        results := st.results ++ batchResults call completed,
        notices := st.notices ++ batchNotices call completed } := by
  induction completed generalizing st with
  | nil => simp [process_in_batches, batchFileRows, batchResults, batchNotices]
  | cons t ts ih =>
    simp only [process_in_batches]
    rw [ih]
    cases hc : call t with
    | none =>
      simp [handleCompleted, batchFileRows, batchResults, batchNotices, truthy, hc]
    | some m =>
      by_cases hm : m.isEmpty
      · simp [handleCompleted, batchFileRows, batchResults, batchNotices, truthy, hc, hm]
      · simp [handleCompleted, batchFileRows, batchResults, batchNotices, truthy, hc, hm,
              append_to_csv]

theorem batchNotices_eq_filter (call : String → Option (List (String × Nat)))
    (ts : List String) :
    batchNotices call ts = ts.filter (fun t => !truthy (call t)) := by
  induction ts with
  | nil => rfl
  | cons t ts ih =>
    cases hc : truthy (call t) <;> simp [batchNotices, List.filter_cons, hc, ih]

theorem batchResults_fst_eq_filter (call : String → Option (List (String × Nat)))
    (ts : List String) :
    (batchResults call ts).map Prod.fst = ts.filter (fun t => truthy (call t)) := by
  induction ts with
  | nil => rfl
  | cons t ts ih =>
    cases hc : truthy (call t) <;> simp [batchResults, List.filter_cons, hc, ih]

theorem batchFileRows_term_succeeds (call : String → Option (List (String × Nat)))
    (ts : List String) (row : Row) (hrow : row ∈ batchFileRows call ts) :
    ∃ m, call row.1 = some m ∧ m ≠ [] ∧ (row.2.1, row.2.2) ∈ m := by
  induction ts with
  | nil => cases hrow
  | cons t tl ih =>
    rcases List.mem_append.mp hrow with h | h
    · by_cases hc : truthy (call t)
      · rw [if_pos hc] at h
        rcases List.mem_map.mp h with ⟨p, hp, heq⟩
        cases hcall : call t with
        | none => rw [hcall] at hc; cases hc
        | some m =>
          refine ⟨m, ?_, ?_, ?_⟩
          · rw [← heq]
            exact hcall
          · intro hnil
            rw [hcall, truthy, hnil] at hc
            simp at hc
          · rw [hcall] at hp
            simp only [Option.getD_some] at hp
            rw [← heq]
            exact hp
      · rw [if_neg hc] at h
        cases h
    · exact ih h

/-! ## Lemmas about the hostname extractor -/

theorem takeWhile_append_of_all {α} (p : α → Bool) (l r : List α)
    (h : ∀ c ∈ l, p c = true) :
    (l ++ r).takeWhile p = l ++ r.takeWhile p := by
  induction l with
  | nil => simp
  | cons c cs ih =>
    rw [List.cons_append, List.takeWhile_cons_of_pos (h c (List.mem_cons_self c cs)),
        ih (fun d hd => h d (List.mem_cons_of_mem c hd)), List.cons_append]

theorem dropWhile_append_of_all {α} (p : α → Bool) (l r : List α)
    (h : ∀ c ∈ l, p c = true) :
    (l ++ r).dropWhile p = r.dropWhile p := by
  induction l with
  | nil => simp
  | cons c cs ih =>
    rw [List.cons_append, List.dropWhile_cons_of_pos (h c (List.mem_cons_self c cs)),
        ih (fun d hd => h d (List.mem_cons_of_mem c hd))]

theorem takeWhile_eq_self_of_all {α} (p : α → Bool) (l : List α)
    (h : ∀ c ∈ l, p c = true) :
    l.takeWhile p = l := by
  have h2 := takeWhile_append_of_all p l [] h
  simpa using h2

theorem not_contains_of_all_ne (l : List Char) (d : Char)
    (h : ∀ c ∈ l, (c != d) = true) :
    l.contains d = false := by
  cases hc : l.contains d with
  | false => rfl
  | true =>
    have hd : d ∈ l := List.mem_of_elem_eq_true hc
    have := h d hd
    simp at this

theorem splitScheme_of_valid (scheme tail : List Char) (h0 : scheme ≠ [])
    (hs : ∀ c ∈ scheme, c ∈ lowerAlphaChars) :
    splitScheme (scheme ++ ':' :: tail) = (scheme, tail) := by
  have halpha : ∀ c ∈ lowerAlphaChars, (c != ':') = true ∧ c.isAlpha = true ∧ isSchemeChar c = true := by
    decide
  have hne : ∀ c ∈ scheme, (fun c => c != ':') c = true :=
    fun c hc => (halpha c (hs c hc)).1
  have ht : (scheme ++ ':' :: tail).takeWhile (fun c => c != ':') = scheme := by
    rw [takeWhile_append_of_all _ _ _ hne, List.takeWhile_cons_of_neg (by simp)]
    simp
  have hd : (scheme ++ ':' :: tail).dropWhile (fun c => c != ':') = ':' :: tail := by
    rw [dropWhile_append_of_all _ _ _ hne, List.dropWhile_cons_of_neg (by simp)]
  rcases scheme with _ | ⟨c0, cs⟩
  · exact absurd rfl h0
  · rw [splitScheme, ht, hd]
    simp
    exact ⟨(halpha c0 (hs c0 (List.mem_cons_self c0 cs))).2.1,
           (halpha c0 (hs c0 (List.mem_cons_self c0 cs))).2.2,
           fun c hc => (halpha c (hs c (List.mem_cons_of_mem c0 hc))).2.2⟩

theorem urlparseHostname_wellformed (scheme host rest : List Char)
    (hs0 : scheme ≠ []) (hs : ∀ c ∈ scheme, c ∈ lowerAlphaChars)
    (hh0 : host ≠ []) (hh : ∀ c ∈ host, c ∈ hostChars)
    (hr : rest = [] ∨ ∃ c r0, rest = c :: r0 ∧ isNetlocEnd c = true) :
    urlparseHostname (scheme ++ ':' :: '/' :: '/' :: (host ++ rest)) = .ok (some host) := by
  have hhost : ∀ c ∈ hostChars, (!isNetlocEnd c) = true ∧ (c != '[') = true
      ∧ (c != ']') = true ∧ (c != '@') = true ∧ (c != ':') = true
      ∧ Char.toLower c = c := by
    decide
  rw [urlparseHostname, splitScheme_of_valid scheme _ hs0 hs]
  have hnet : (host ++ rest).takeWhile (fun c => !isNetlocEnd c) = host := by
    rw [takeWhile_append_of_all _ _ _ (fun c hc => (hhost c (hh c hc)).1)]
    rcases hr with hr | ⟨c, r0, hr, hc⟩
    · simp [hr]
    · rw [hr, List.takeWhile_cons_of_neg (by simp [hc]), List.append_nil]
  simp only [hnet]
  have hbr1 : host.contains '[' = false :=
    not_contains_of_all_ne _ _ (fun c hc => (hhost c (hh c hc)).2.1)
  have hbr2 : host.contains ']' = false :=
    not_contains_of_all_ne _ _ (fun c hc => (hhost c (hh c hc)).2.2.1)
  rw [hbr1, hbr2]
  simp only [Bool.false_and, Bool.and_false, Bool.or_self, Bool.false_eq_true, if_false]
  have hafter : afterLast '@' host = host := by
    rw [afterLast, takeWhile_eq_self_of_all _ _
      (fun c hc => (hhost c (hh c (List.mem_reverse.mp hc))).2.2.2.1), List.reverse_reverse]
  rw [hafter, hostinfoHost, hbr1]
  simp only [Bool.false_eq_true, if_false]
  rw [takeWhile_eq_self_of_all _ _ (fun c hc => (hhost c (hh c hc)).2.2.2.2.1)]
  have hlower : host.map Char.toLower = host := by
    rw [List.map_congr_left (fun c hc => (hhost c (hh c hc)).2.2.2.2.2)]
    exact List.map_id host
  rw [hlower]
  rcases host with _ | ⟨c0, cs⟩
  · exact absurd rfl hh0
  · rfl

theorem urlparseHostname_of_no_netloc (cs : List Char)
    (h : ∀ r, (splitScheme cs).2 ≠ '/' :: '/' :: r) :
    urlparseHostname cs = .ok none := by
  rw [urlparseHostname]
  split
  next r heq => exact absurd heq (h r)
  next => rfl

theorem extract_hostname_of_no_colon_no_slash (url : String)
    (h : ∀ c ∈ url.data, (c != ':') = true ∧ (c != '/') = true) :
    extract_hostname url = none := by
  have hsplit : (splitScheme url.data).2 = url.data := by
    rw [splitScheme]
    have hd : url.data.dropWhile (fun c => c != ':') = [] := by
      have h2 := dropWhile_append_of_all (fun c => c != ':') url.data []
        (fun c hc => (h c hc).1)
      simpa using h2
    rw [hd]
  have hnone : urlparseHostname url.data = .ok none := by
    refine urlparseHostname_of_no_netloc _ (fun r hr => ?_)
    rw [hsplit] at hr
    have : '/' ∈ url.data := by
      rw [hr]
      exact List.mem_cons_self _ _
    have := (h '/' this).2
    simp at this
  rw [extract_hostname, hnone]

/-! ## Lemmas about the result parser -/

theorem parse_mkBody (xs : List Json) :
    parse_organic_results (mkBody xs) =
      match collectLinks (xs.take 10) with
      | .error e => .error e
      | .ok ls => .ok (value_counts (truthyHostnames ls)) := rfl

theorem collectLinks_ok_length (l : List Json) (ls : List Json)
    (h : collectLinks l = .ok ls) : ls.length = l.length := by
  induction l generalizing ls with
  | nil =>
    rw [collectLinks] at h
    cases h
    rfl
  | cons r rs ih =>
    rw [collectLinks] at h
    rcases hd : dictGet r "link" (Json.str "") with e | lv
    · rw [hd] at h
      cases h
    · rw [hd] at h
      rcases hc : collectLinks rs with e | tail
      · rw [hc] at h
        cases h
      · rw [hc] at h
        cases h
        simp [ih tail hc]

theorem truthyHostnames_length_of_collectLinks (l : List Json) (ls : List Json)
    (h : collectLinks l = .ok ls) :
    (truthyHostnames ls).length = l.countP linkContributes := by
  induction l generalizing ls with
  | nil =>
    rw [collectLinks] at h
    cases h
    rfl
  | cons r rs ih =>
    rw [collectLinks] at h
    rcases hd : dictGet r "link" (Json.str "") with e | lv
    · rw [hd] at h
      cases h
    · rw [hd] at h
      rcases hc : collectLinks rs with e | tail
      · rw [hc] at h
        cases h
      · rw [hc] at h
        cases h
        have ih2 := ih tail hc
        rw [truthyHostnames] at ih2
        have hcontr : linkContributes r =
            (match linkHostname lv with | some hh => !hh.isEmpty | none => false) := by
          rw [linkContributes, hd]
        rw [truthyHostnames, List.filterMap_cons, List.countP_cons, hcontr]
        rcases hl : linkHostname lv with _ | hst
        · simp [ih2]
        · cases hemp : hst.isEmpty with
          | true => simp [hemp, ih2]
          | false => simp [hemp, ih2]

theorem parse_ok_value_counts (j : Json) (m : List (String × Nat))
    (h : parse_organic_results j = .ok m) : ∃ hs, m = value_counts hs := by
  rw [parse_organic_results] at h
  split at h
  · cases h
  · split at h
    · cases h
    · split at h
      · cases h
      · split at h
        · split at h
          · cases h
          · injection h with h
            exact ⟨_, h.symm⟩
        · cases h

/-! ## Lemmas about the API client call -/

theorem call_api_fst (post : Payload → Except Unit HttpResponse) (payload : Payload)
    (search_term : String) :
    (call_api post payload search_term).2.1 = search_term := by
  rcases hp : post (setTerm payload search_term) with e | r
  · simp [call_api, hp]
  · simp only [call_api, hp]
    cases hs : r.status_code == 200 with
    | false => simp [hs]
    | true =>
      rcases hb : r.body with e | j
      · simp [hs, hb]
      · rcases hm : parse_organic_results j with e | m <;> simp [hs, hb, hm]

theorem call_api_payload_after (post : Payload → Except Unit HttpResponse)
    (payload : Payload) (search_term : String) :
    (call_api post payload search_term).1 = setTerm payload search_term := by
  rcases hp : post (setTerm payload search_term) with e | r
  · simp [call_api, hp]
  · simp only [call_api, hp]
    cases hs : r.status_code == 200 with
    | false => simp [hs]
    | true =>
      rcases hb : r.body with e | j
      · simp [hs, hb]
      · rcases hm : parse_organic_results j with e | m <;> simp [hs, hb, hm]

theorem call_api_some_inv (post : Payload → Except Unit HttpResponse)
    (payload : Payload) (search_term : String) (m : List (String × Nat))
    (h : (call_api post payload search_term).2.2 = some m) :
    ∃ r, post (setTerm payload search_term) = .ok r ∧ r.status_code = 200 ∧
      ∃ j, r.body = .ok j ∧ parse_organic_results j = .ok m := by
  rcases hp : post (setTerm payload search_term) with e | r
  · simp [call_api, hp] at h
  · cases hs : r.status_code == 200 with
    | false => simp [call_api, hp, hs] at h
    | true =>
      rcases hb : r.body with e | j
      · simp [call_api, hp, hs, hb] at h
      · rcases hm : parse_organic_results j with e | m2
        · simp [call_api, hp, hs, hb, hm] at h
        · simp [call_api, hp, hs, hb, hm] at h
          exact ⟨r, rfl, by simpa using hs, j, hb, h ▸ hm⟩

/-! ## Lemmas for empty and degenerate parses -/

theorem filterMap_none_of_not_contrib (lv : Json)
    (h : (match linkHostname lv with | some hh => !hh.isEmpty | none => false) = false) :
    (match linkHostname lv with
     | some hh => if hh.isEmpty then none else some hh
     | none => none) = (none : Option String) := by
  rcases hl : linkHostname lv with _ | hh
  · rfl
  · rw [hl] at h
    simp only [Bool.not_eq_false'] at h
    simp [h]

theorem collectLinks_all_objs_no_contrib (l : List Json)
    (h : ∀ r ∈ l, (∃ fs, r = Json.obj fs) ∧ linkContributes r = false) :
    ∃ ls, collectLinks l = .ok ls ∧ truthyHostnames ls = [] := by
  induction l with
  | nil => exact ⟨[], rfl, rfl⟩
  | cons r rs ih =>
    obtain ⟨⟨fs, hfs⟩, hcon⟩ := h r (List.mem_cons_self r rs)
    obtain ⟨ls, hls, hth⟩ := ih (fun d hd => h d (List.mem_cons_of_mem r hd))
    have hd : dictGet r "link" (Json.str "")
        = .ok ((fs.lookup "link").getD (Json.str "")) := by
      rw [hfs]
      rfl
    refine ⟨(fs.lookup "link").getD (Json.str "") :: ls, ?_, ?_⟩
    · rw [collectLinks, hd, hls]
    · rw [truthyHostnames, List.filterMap_cons]
      have hcon2 : (match linkHostname ((fs.lookup "link").getD (Json.str "")) with
          | some hh => !hh.isEmpty | none => false) = false := by
        rw [linkContributes, hd] at hcon
        exact hcon
      rw [filterMap_none_of_not_contrib _ hcon2]
      rw [truthyHostnames] at hth
      exact hth

/-! ## Claim theorems -/

/-- C1: the claim states that `call_api` clones the request-payload template
and sets the term only on its own copy, leaving the shared template
unchanged. The code does the opposite: line 51 executes
`payload["data"]["q"] = search_term` on the very payload object it was
handed, so after a call the shared template carries the term. Evaluated at
the template built by `main` and the term `"shoes"` (the transport outcome
is irrelevant to the mutation, which happens before the `try` block): the
shared record after the call differs from the template and its `q` field
holds the term. -/
theorem call_api_mutates_shared_template :
    (call_api (fun _ => .error ()) payloadTemplate "shoes").1 ≠ payloadTemplate ∧
    (call_api (fun _ => .error ()) payloadTemplate "shoes").1.data.q = some "shoes" := by
  constructor
  · decide
  · decide

/-- C2: every row a batch run appends to the output file belongs to a term
whose `call_api` saw a 200 response with a decodable body whose parse
succeeded with a nonempty mapping; terms whose call failed or whose mapping
is empty contribute no rows and produce exactly one failure notice each (the
notices are exactly the falsy-result terms, in completion order). -/
theorem batch_rows_only_for_succeeding_terms
    (post : Payload → Except Unit HttpResponse) (payload : Payload)
    (completed : List String) (file0 : List Row) :
    (∀ row ∈ (process_in_batches (fun t => (call_api post payload t).2.2) completed
        { file := file0, results := [], notices := [] }).file.drop file0.length,
      ∃ r j m, post (setTerm payload row.1) = .ok r ∧ r.status_code = 200 ∧
        r.body = .ok j ∧ parse_organic_results j = .ok m ∧ m ≠ []) ∧
    (process_in_batches (fun t => (call_api post payload t).2.2) completed
        { file := file0, results := [], notices := [] }).notices
      = completed.filter (fun t => !truthy ((call_api post payload t).2.2)) := by
  constructor
  · intro row hrow
    rw [process_in_batches_eq] at hrow
    simp only [List.drop_left] at hrow
    obtain ⟨m, hm, hne, _⟩ := batchFileRows_term_succeeds _ _ _ hrow
    obtain ⟨r, hr, hs, j, hj, hp⟩ := call_api_some_inv post payload row.1 m hm
    exact ⟨r, j, m, hr, hs, hj, hp, hne⟩
  · rw [process_in_batches_eq]
    simp only [List.nil_append]
    exact batchNotices_eq_filter _ completed

/-- Witness for C2: with the simulated transport `postW` (200 for the term
`"ok"`, 500 otherwise) and completion order `["ok", "bad"]`, the row written
for `"ok"` is justified by a 200 response with a nonempty parsed mapping,
and the notices are exactly `["bad"]`. -/
theorem batch_rows_only_for_succeeding_terms_witness :
    (∃ r j m, postW (setTerm payloadTemplate "ok") = .ok r ∧ r.status_code = 200 ∧
      r.body = .ok j ∧ parse_organic_results j = .ok m ∧ m ≠ []) ∧
    (process_in_batches (fun t => (call_api postW payloadTemplate t).2.2) ["ok", "bad"]
        { file := [], results := [], notices := [] }).notices = ["bad"] := by
  constructor
  · exact (batch_rows_only_for_succeeding_terms postW payloadTemplate ["ok", "bad"] []).1
      ("ok", "example.com", 1) (by decide)
  · rw [(batch_rows_only_for_succeeding_terms postW payloadTemplate ["ok", "bad"] []).2]
    decide

/-- C3: for every transport outcome, `call_api` returns a pair whose first
component is the given term; on a 200 response with a decodable body whose
parse succeeds it returns the parsed mapping, on a non-200 status it
returns the absence marker, on a transport failure it returns the absence
marker, and on an undecodable body it returns the absence marker — no case
escapes as an exception (the function is total). -/
theorem call_api_result_spec (post : Payload → Except Unit HttpResponse)
    (payload : Payload) (search_term : String) :
    ((call_api post payload search_term).2.1 = search_term) ∧
    (∀ r j m, post (setTerm payload search_term) = .ok r → r.status_code = 200 →
      r.body = .ok j → parse_organic_results j = .ok m →
      (call_api post payload search_term).2.2 = some m) ∧
    (∀ r, post (setTerm payload search_term) = .ok r → r.status_code ≠ 200 →
      (call_api post payload search_term).2.2 = none) ∧
    (∀ e, post (setTerm payload search_term) = .error e →
      (call_api post payload search_term).2.2 = none) ∧
    (∀ r, post (setTerm payload search_term) = .ok r → r.body = .error () →
      (call_api post payload search_term).2.2 = none) := by
  refine ⟨call_api_fst post payload search_term, ?_, ?_, ?_, ?_⟩
  · intro r j m hp hs hb hm
    have hs2 : (r.status_code == 200) = true := beq_iff_eq.mpr hs
    simp [call_api, hp, hs2, hb, hm]
  · intro r hp hs
    have hs2 : (r.status_code == 200) = false := beq_eq_false_iff_ne.mpr hs
    simp [call_api, hp, hs2]
  · intro e hp
    simp [call_api, hp]
  · intro r hp hb
    cases hs : r.status_code == 200 with
    | false => simp [call_api, hp, hs]
    | true => simp [call_api, hp, hs, hb]

/-- Witness for C3 at the simulated transport `postW`: the term `"ok"`
yields `(ok, some-mapping)` via a 200 response, and the term `"bad"` yields
the absence marker via its 500 response. -/
theorem call_api_result_spec_witness :
    (call_api postW payloadTemplate "ok").2.1 = "ok" ∧
    (call_api postW payloadTemplate "ok").2.2 = some [("example.com", 1)] ∧
    (call_api postW payloadTemplate "bad").2.2 = none := by
  refine ⟨(call_api_result_spec postW payloadTemplate "ok").1, ?_, ?_⟩
  · exact (call_api_result_spec postW payloadTemplate "ok").2.1
      { status_code := 200, body := .ok (mkBody [organicEntry "https://example.com/a"]) }
      (mkBody [organicEntry "https://example.com/a"])
      [("example.com", 1)] rfl rfl rfl rfl
  · exact (call_api_result_spec postW payloadTemplate "bad").2.2.1
      { status_code := 500, body := .error () } rfl (by decide)

/-- C4: the result parser looks only at the first 10 organic entries, in
API order: a body whose organic list is truncated to 10 entries parses
identically, so entries from position 11 on never influence the mapping;
and whenever the parse succeeds, the total of all counts equals the number
of hostname-contributing entries among the first 10 — an entry with an
unparseable or missing link occupies one of the 10 slots while contributing
no hostname, and the total never exceeds 10. -/
theorem parser_truncates_to_top_10 (xs : List Json) :
    parse_organic_results (mkBody xs) = parse_organic_results (mkBody (xs.take 10)) ∧
    (∀ m, parse_organic_results (mkBody xs) = .ok m →
      (m.map Prod.snd).sum = (xs.take 10).countP linkContributes ∧
      (m.map Prod.snd).sum ≤ 10) := by
  constructor
  · rw [parse_mkBody, parse_mkBody, List.take_take, Nat.min_self]
  · intro m hm
    rw [parse_mkBody] at hm
    rcases hcl : collectLinks (xs.take 10) with e | ls
    · rw [hcl] at hm
      cases hm
    · rw [hcl] at hm
      injection hm with hm
      subst hm
      constructor
      · rw [value_counts_sum]
        exact truthyHostnames_length_of_collectLinks _ _ hcl
      · rw [value_counts_sum]
        calc (truthyHostnames ls).length
            ≤ ls.length := List.length_filterMap_le _ _
          _ = (xs.take 10).length := collectLinks_ok_length _ _ hcl
          _ ≤ 10 := List.length_take_le 10 xs

/-- Witness for C4 at the 12-entry sample list: truncating to 10 entries
does not change the parse, and the parsed counts (4+2+2 = 8) equal the
number of contributing entries among the first 10 (two of the ten slots are
occupied by a missing link and an unparseable link, and the two `zzz.com`
entries beyond the window are ignored). -/
theorem parser_truncates_to_top_10_witness :
    parse_organic_results (mkBody sampleOrganic)
      = parse_organic_results (mkBody (sampleOrganic.take 10)) ∧
    (([("a.com", 4), ("c.com", 2), ("b.com", 2)].map Prod.snd).sum
        = (sampleOrganic.take 10).countP linkContributes ∧
     ([("a.com", 4), ("c.com", 2), ("b.com", 2)].map Prod.snd).sum ≤ 10) :=
  ⟨(parser_truncates_to_top_10 sampleOrganic).1,
   (parser_truncates_to_top_10 sampleOrganic).2
     [("a.com", 4), ("c.com", 2), ("b.com", 2)] rfl⟩

/-- C5: the tallying step used by the result parser maps each hostname that
occurs in the surviving-links list to exactly its number of occurrences,
and hostnames that do not occur are absent from the mapping. -/
theorem value_counts_maps_each_hostname_to_count (links : List String) :
    (∀ h, h ∈ links → (value_counts links).lookup h = some (links.count h)) ∧
    (∀ h, h ∉ links → (value_counts links).lookup h = none) :=
  ⟨fun h hm => value_counts_lookup_of_mem links h hm,
   fun h hm => value_counts_lookup_of_not_mem links h hm⟩

/-- Witness for C5: ten links resolving to hostnames
`[a,a,a,b,b,c,c,c,c,d]` yield the mapping `{a↦3, b↦2, c↦4, d↦1}` and no
entry for an absent hostname `e`. -/
theorem value_counts_maps_each_hostname_to_count_witness :
    (value_counts ["a", "a", "a", "b", "b", "c", "c", "c", "c", "d"]).lookup "a" = some 3 ∧
    (value_counts ["a", "a", "a", "b", "b", "c", "c", "c", "c", "d"]).lookup "b" = some 2 ∧
    (value_counts ["a", "a", "a", "b", "b", "c", "c", "c", "c", "d"]).lookup "c" = some 4 ∧
    (value_counts ["a", "a", "a", "b", "b", "c", "c", "c", "c", "d"]).lookup "d" = some 1 ∧
    (value_counts ["a", "a", "a", "b", "b", "c", "c", "c", "c", "d"]).lookup "e" = none := by
  refine ⟨?_, ?_, ?_, ?_, ?_⟩
  · have h := (value_counts_maps_each_hostname_to_count
      ["a", "a", "a", "b", "b", "c", "c", "c", "c", "d"]).1 "a" (by decide)
    exact (by decide :
      List.count "a" ["a", "a", "a", "b", "b", "c", "c", "c", "c", "d"] = 3) ▸ h
  · have h := (value_counts_maps_each_hostname_to_count
      ["a", "a", "a", "b", "b", "c", "c", "c", "c", "d"]).1 "b" (by decide)
    exact (by decide :
      List.count "b" ["a", "a", "a", "b", "b", "c", "c", "c", "c", "d"] = 2) ▸ h
  · have h := (value_counts_maps_each_hostname_to_count
      ["a", "a", "a", "b", "b", "c", "c", "c", "c", "d"]).1 "c" (by decide)
    exact (by decide :
      List.count "c" ["a", "a", "a", "b", "b", "c", "c", "c", "c", "d"] = 4) ▸ h
  · have h := (value_counts_maps_each_hostname_to_count
      ["a", "a", "a", "b", "b", "c", "c", "c", "c", "d"]).1 "d" (by decide)
    exact (by decide :
      List.count "d" ["a", "a", "a", "b", "b", "c", "c", "c", "c", "d"] = 1) ▸ h
  · exact (value_counts_maps_each_hostname_to_count
      ["a", "a", "a", "b", "b", "c", "c", "c", "c", "d"]).2 "e" (by decide)

/-- C6: the parser degrades to an empty mapping, with no error, when the
`results` level is missing, when the inner `results` level is missing, when
the `organic` level is missing, and when every organic entry is an object
that contributes no hostname (missing `link` field or unparseable link). -/
theorem parser_missing_levels_empty_mapping :
    (∀ fs : List (String × Json), fs.lookup "results" = none →
      parse_organic_results (Json.obj fs) = .ok []) ∧
    (∀ fs gs : List (String × Json), fs.lookup "results" = some (Json.obj gs) →
      gs.lookup "results" = none → parse_organic_results (Json.obj fs) = .ok []) ∧
    (∀ fs gs hs : List (String × Json), fs.lookup "results" = some (Json.obj gs) →
      gs.lookup "results" = some (Json.obj hs) → hs.lookup "organic" = none →
      parse_organic_results (Json.obj fs) = .ok []) ∧
    (∀ xs : List Json, (∀ r ∈ xs, (∃ fs, r = Json.obj fs) ∧ linkContributes r = false) →
      parse_organic_results (mkBody xs) = .ok []) := by
  refine ⟨?_, ?_, ?_, ?_⟩
  · intro fs h
    simp [parse_organic_results, dictGet, h]
    rfl
  · intro fs gs h1 h2
    simp [parse_organic_results, dictGet, h1, h2]
    rfl
  · intro fs gs hs h1 h2 h3
    simp [parse_organic_results, dictGet, h1, h2, h3]
    rfl
  · intro xs h
    obtain ⟨ls, hls, hth⟩ := collectLinks_all_objs_no_contrib (xs.take 10)
      (fun r hr => h r (List.take_subset 10 xs hr))
    rw [parse_mkBody, hls]
    show Except.ok (value_counts (truthyHostnames ls)) = Except.ok []
    rw [hth]
    rfl

/-- Witness for C6: a body with no `results` key parses to the empty
mapping, and so does a well-shaped body whose two organic entries are an
object without a `link` field and an object with an unparseable link. -/
theorem parser_missing_levels_empty_mapping_witness :
    parse_organic_results (Json.obj [("foo", Json.num 1)]) = .ok [] ∧
    parse_organic_results
      (mkBody [Json.obj [], Json.obj [("link", Json.str "::bad::")]]) = .ok [] := by
  constructor
  · exact parser_missing_levels_empty_mapping.1 [("foo", Json.num 1)] rfl
  · refine parser_missing_levels_empty_mapping.2.2.2
      [Json.obj [], Json.obj [("link", Json.str "::bad::")]] ?_
    intro r hr
    rcases List.mem_cons.mp hr with hr1 | hr2
    · subst hr1
      exact ⟨⟨[], rfl⟩, rfl⟩
    · rcases List.mem_cons.mp hr2 with hr3 | hr4
      · subst hr3
        exact ⟨⟨[("link", Json.str "::bad::")], rfl⟩, rfl⟩
      · cases hr4

/-- C7: the hostname extractor is a total function that converts every
parse failure to the absence marker: the empty string yields the absence
marker; a well-formed URL built from a valid scheme, a host over hostname
characters and a path/query/fragment remainder yields exactly that host; a
string that contains neither a colon nor a slash (so it cannot carry a
netloc) yields the absence marker; every input on which the modelled
`urlparse` raises yields the absence marker; and the concrete raising input
`"http://[abc"` (unbalanced IPv6 bracket) yields the absence marker. -/
theorem extract_hostname_total_spec :
    extract_hostname "" = none ∧
    (∀ scheme host rest : List Char, scheme ≠ [] →
      (∀ c ∈ scheme, c ∈ lowerAlphaChars) → host ≠ [] →
      (∀ c ∈ host, c ∈ hostChars) →
      (rest = [] ∨ ∃ c r0, rest = c :: r0 ∧ isNetlocEnd c = true) →
      extract_hostname ⟨scheme ++ ':' :: '/' :: '/' :: (host ++ rest)⟩ = some ⟨host⟩) ∧
    (∀ url : String, (∀ c ∈ url.data, (c != ':') = true ∧ (c != '/') = true) →
      extract_hostname url = none) ∧
    (∀ url : String, urlparseHostname url.data = .error () → extract_hostname url = none) ∧
    extract_hostname "http://[abc" = none := by
  refine ⟨by decide, ?_, ?_, ?_, by decide⟩
  · intro scheme host rest hs0 hs hh0 hh hr
    show (match urlparseHostname (scheme ++ ':' :: '/' :: '/' :: (host ++ rest)) with
          | .error _ => none
          | .ok none => none
          | .ok (some h) => some (⟨h⟩ : String)) = some ⟨host⟩
    rw [urlparseHostname_wellformed scheme host rest hs0 hs hh0 hh hr]
  · exact extract_hostname_of_no_colon_no_slash
  · intro url h
    rw [extract_hostname, h]

/-- Witness for C7: the well-formed URL `https://www.example.com/path`
yields exactly the host `www.example.com`. -/
theorem extract_hostname_total_spec_witness :
    extract_hostname
        ⟨"https".data ++ ':' :: '/' :: '/' :: ("www.example.com".data ++ "/path".data)⟩
      = some ⟨"www.example.com".data⟩ :=
  extract_hostname_total_spec.2.1 "https".data "www.example.com".data "/path".data
    (by decide) (by decide) (by decide) (by decide)
    (Or.inr ⟨'/', "path".data, by decide, by decide⟩)

/-- C8: for every completion order of the submitted terms, the batch run
processes all of them: the terms of the returned results list together with
the failure-notice terms are a permutation of the input term list, so no
term is silently dropped, every term ends up either in the results or among
the notices, and the failure of one term never prevents the remaining terms from
being processed (the run consumes the entire completion sequence before
returning). -/
theorem batch_processes_all_terms (call : String → Option (List (String × Nat)))
    (search_terms completed : List String) (hperm : completed.Perm search_terms) :
    (((process_in_batches call completed ⟨[], [], []⟩).results.map Prod.fst
        ++ (process_in_batches call completed ⟨[], [], []⟩).notices).Perm search_terms) ∧
    (∀ t ∈ search_terms,
      t ∈ (process_in_batches call completed ⟨[], [], []⟩).results.map Prod.fst
        ∨ t ∈ (process_in_batches call completed ⟨[], [], []⟩).notices) := by
  have hmain : ((process_in_batches call completed ⟨[], [], []⟩).results.map Prod.fst
      ++ (process_in_batches call completed ⟨[], [], []⟩).notices).Perm search_terms := by
    rw [process_in_batches_eq]
    simp only [List.nil_append]
    rw [batchResults_fst_eq_filter, batchNotices_eq_filter]
    exact (List.filter_append_perm _ completed).trans hperm
  refine ⟨hmain, fun t ht => ?_⟩
  exact List.mem_append.mp (hmain.mem_iff.mpr ht)

/-- Witness for C8: three terms, one of which fails, processed in a
completion order different from the submission order, are all accounted
for. -/
theorem batch_processes_all_terms_witness :
    (((process_in_batches
        (fun t => if t == "b" then none else some [("h.com", 1)])
        ["b", "c", "a"] ⟨[], [], []⟩).results.map Prod.fst
      ++ (process_in_batches
        (fun t => if t == "b" then none else some [("h.com", 1)])
        ["b", "c", "a"] ⟨[], [], []⟩).notices).Perm ["a", "b", "c"]) :=
  (batch_processes_all_terms (fun t => if t == "b" then none else some [("h.com", 1)])
    ["a", "b", "c"] ["b", "c", "a"] (by decide)).1

/-- C9: `append_to_csv` appends: the previous file contents stay as a
prefix and the new rows go after them, so running the same batch twice
against the same output file leaves it with exactly twice the row count of
a single run from an empty file. -/
theorem append_mode_accumulates (call : String → Option (List (String × Nat)))
    (completed : List String) :
    (∀ (file : List Row) (data : List (String × Nat)) (search_term : String),
      append_to_csv file data search_term
        = file ++ append_to_csv [] data search_term) ∧
    (process_in_batches call completed
        { file := (process_in_batches call completed ⟨[], [], []⟩).file,
          results := [], notices := [] }).file.length
      = 2 * (process_in_batches call completed ⟨[], [], []⟩).file.length := by
  constructor
  · intro file data search_term
    simp [append_to_csv]
  · simp only [process_in_batches_eq]
    simp [List.length_append, Nat.two_mul]

/-- Witness for C9: appending two rows for each of two terms, twice,
leaves the file with 8 rows, twice the 4 rows of a single run. -/
theorem append_mode_accumulates_witness :
    append_to_csv [("t", "x.com", 1)] [("y.com", 2)] "t2"
      = [("t", "x.com", 1)] ++ append_to_csv [] [("y.com", 2)] "t2" ∧
    (process_in_batches (fun _ => some [("h.com", 2), ("g.com", 1)]) ["a", "b"]
        { file := (process_in_batches (fun _ => some [("h.com", 2), ("g.com", 1)])
            ["a", "b"] ⟨[], [], []⟩).file,
          results := [], notices := [] }).file.length
      = 2 * (process_in_batches (fun _ => some [("h.com", 2), ("g.com", 1)])
          ["a", "b"] ⟨[], [], []⟩).file.length :=
  ⟨(append_mode_accumulates (fun _ => some [("h.com", 2), ("g.com", 1)]) ["a", "b"]).1
      [("t", "x.com", 1)] [("y.com", 2)] "t2",
   (append_mode_accumulates (fun _ => some [("h.com", 2), ("g.com", 1)]) ["a", "b"]).2⟩

/-- C10: whenever the parser succeeds for a term, the rows `append_to_csv`
writes for that term are in non-increasing order of count, because the
mapping is iterated in the descending-count order produced by the
value-counts tally. -/
theorem per_term_rows_sorted_by_count (search_term : String) (j : Json)
    (m : List (String × Nat)) (h : parse_organic_results j = .ok m) :
    (append_to_csv [] m search_term).Pairwise (fun r1 r2 => r2.2.2 ≤ r1.2.2) := by
  obtain ⟨hs, rfl⟩ := parse_ok_value_counts j m h
  rw [append_to_csv, List.nil_append]
  exact (value_counts_sorted hs).map _ (fun a b hab => hab)

/-- Witness for C10: the rows written for the sample response (counts 4, 2,
2) are in non-increasing count order. -/
theorem per_term_rows_sorted_by_count_witness :
    (append_to_csv [] [("a.com", 4), ("c.com", 2), ("b.com", 2)] "shoes").Pairwise
      (fun r1 r2 => r2.2.2 ≤ r1.2.2) :=
  per_term_rows_sorted_by_count "shoes" (mkBody sampleOrganic)
    [("a.com", 4), ("c.com", 2), ("b.com", 2)] rfl

end SerpParser
